import Mathlib

/-!
Verification of the `auto_invest` pipeline (src/auto_invest/asset_fetcher.py and
src/auto_invest/asset_purchaser.py) against its natural-language specification.

The Python sources are shallowly embedded below:
* pure helpers become Lean functions on `List Char` / `List String` / `Int`;
* remote services (video feed, transcript service, price lookup, language model)
  become explicit environment parameters (functions passed to the embedded code);
* Python exceptions become `Option` / `Except` results;
* console prints become an accumulated `List LogEvent`;
* timestamps are integers (seconds), `timedelta(days=d)` is `d * 86400` seconds,
  and ledger expiration dates are integers (days), since the code only ever
  compares and offsets dates, never does calendar arithmetic beyond that;
* purchase quantities and prices are carried through unchanged by the code
  (no arithmetic is performed on them), so they are modelled as `Int`, with the
  failed-lookup sentinel `-1.0` modelled as `-1`.
-/

namespace AutoInvest

/-! ## Generic stable descending sort by key

`list.sort(key=..., reverse=True)` and `Counter.most_common()` (which is
`sorted(counter.items(), key=itemgetter(1), reverse=True)` over items in
first-insertion order) are both stable sorts by a key, descending.  A stable
descending sort is extensionally unique, so we embed both with the same
insertion sort: an element is inserted after every earlier element whose key is
at least as large (ties keep input order). -/

def insertDescBy {α κ : Type} [LinearOrder κ] (key : α → κ) (x : α) : List α → List α
  | [] => [x]
  | y :: ys => if key y ≤ key x then x :: y :: ys else y :: insertDescBy key x ys

def sortDescBy {α κ : Type} [LinearOrder κ] (key : α → κ) : List α → List α
  | [] => []
  | x :: xs => insertDescBy key x (sortDescBy key xs)

theorem mem_insertDescBy {α κ : Type} [LinearOrder κ] (key : α → κ) (x : α)
    (l : List α) (a : α) : a ∈ insertDescBy key x l ↔ a = x ∨ a ∈ l := by
  induction l with
  | nil => simp [insertDescBy]
  | cons y ys ih =>
    by_cases h : key y ≤ key x
    · simp [insertDescBy, h]
    · simp [insertDescBy, h, ih]
      tauto

theorem perm_insertDescBy {α κ : Type} [LinearOrder κ] (key : α → κ) (x : α)
    (l : List α) : (insertDescBy key x l).Perm (x :: l) := by
  induction l with
  | nil => simp [insertDescBy]
  | cons y ys ih =>
    by_cases h : key y ≤ key x
    · simp [insertDescBy, h]
    · simp only [insertDescBy, if_neg h]
      exact ((ih.cons y).trans (List.Perm.swap x y ys))

theorem perm_sortDescBy {α κ : Type} [LinearOrder κ] (key : α → κ)
    (l : List α) : (sortDescBy key l).Perm l := by
  induction l with
  | nil => simp [sortDescBy]
  | cons x xs ih =>
    exact (perm_insertDescBy key x (sortDescBy key xs)).trans (ih.cons x)

/-- The ordering produced by a stable descending sort: either a strictly larger
key, or an equal key and an earlier position `pos` in the input. -/
def stableDescRel {α κ : Type} [LinearOrder κ] (key : α → κ) (pos : α → Nat)
    (a b : α) : Prop :=
  key b < key a ∨ (key a = key b ∧ pos a < pos b)

theorem stableDescRel_trans {α κ : Type} [LinearOrder κ] (key : α → κ)
    (pos : α → Nat) {a b c : α} (hab : stableDescRel key pos a b)
    (hbc : stableDescRel key pos b c) : stableDescRel key pos a c := by
  rcases hab with h1 | ⟨h1, h1'⟩ <;> rcases hbc with h2 | ⟨h2, h2'⟩
  · exact Or.inl (lt_trans h2 h1)
  · exact Or.inl (h2 ▸ h1)
  · exact Or.inl (h1 ▸ h2)
  · exact Or.inr ⟨h1.trans h2, lt_trans h1' h2'⟩

theorem pairwise_insertDescBy {α κ : Type} [LinearOrder κ] (key : α → κ)
    (pos : α → Nat) (x : α) (l : List α)
    (hl : l.Pairwise (stableDescRel key pos))
    (hx : ∀ y ∈ l, pos x < pos y) :
    (insertDescBy key x l).Pairwise (stableDescRel key pos) := by
  induction l with
  | nil => simp [insertDescBy]
  | cons y ys ih =>
    rcases List.pairwise_cons.mp hl with ⟨hy, hys⟩
    by_cases h : key y ≤ key x
    · have hxy : stableDescRel key pos x y := by
        rcases lt_or_eq_of_le h with h' | h'
        · exact Or.inl h'
        · exact Or.inr ⟨h'.symm, hx y (List.mem_cons_self y ys)⟩
      simp only [insertDescBy, if_pos h]
      refine List.pairwise_cons.mpr ⟨?_, hl⟩
      intro z hz
      rcases List.mem_cons.mp hz with rfl | hz'
      · exact hxy
      · exact stableDescRel_trans key pos hxy (hy z hz')
    · simp only [insertDescBy, if_neg h]
      refine List.pairwise_cons.mpr ⟨?_, ?_⟩
      · intro z hz
        rcases (mem_insertDescBy key x ys z).mp hz with rfl | hz'
        · exact Or.inl (lt_of_not_le h)
        · exact hy z hz'
      · exact ih hys (fun z hz => hx z (List.mem_cons_of_mem y hz))

theorem pairwise_sortDescBy {α κ : Type} [LinearOrder κ] (key : α → κ)
    (pos : α → Nat) (l : List α)
    (hl : l.Pairwise (fun a b => pos a < pos b)) :
    (sortDescBy key l).Pairwise (stableDescRel key pos) := by
  induction l with
  | nil => simp [sortDescBy]
  | cons x xs ih =>
    rcases List.pairwise_cons.mp hl with ⟨hx, hxs⟩
    refine pairwise_insertDescBy key pos x (sortDescBy key xs) (ih hxs) ?_
    intro y hy
    exact hx y ((perm_sortDescBy key xs).mem_iff.mp hy)

/-! ### Input positions

`enumFrom n l` pairs each element with its position (like Python `enumerate`);
it gives the `pos` function needed to state stability of a sort over an
arbitrary input list. -/

def enumFrom {α : Type} : Nat → List α → List (Nat × α)
  | _, [] => []
  | n, x :: xs => (n, x) :: enumFrom (n + 1) xs

theorem map_snd_enumFrom {α : Type} (n : Nat) (l : List α) :
    (enumFrom n l).map Prod.snd = l := by
  induction l generalizing n with
  | nil => rfl
  | cons x xs ih => simp [enumFrom, ih]

theorem le_fst_of_mem_enumFrom {α : Type} {n : Nat} {l : List α}
    {p : Nat × α} (hp : p ∈ enumFrom n l) : n ≤ p.1 := by
  induction l generalizing n with
  | nil => simp [enumFrom] at hp
  | cons x xs ih =>
    rcases List.mem_cons.mp hp with rfl | hp'
    · exact le_refl n
    · exact le_trans (Nat.le_succ n) (ih hp')

theorem pairwise_fst_enumFrom {α : Type} (n : Nat) (l : List α) :
    (enumFrom n l).Pairwise (fun a b => a.1 < b.1) := by
  induction l generalizing n with
  | nil => exact List.Pairwise.nil
  | cons x xs ih =>
    refine List.pairwise_cons.mpr ⟨?_, ih (n + 1)⟩
    intro p hp
    exact lt_of_lt_of_le (Nat.lt_succ_self n) (le_fst_of_mem_enumFrom hp)

/-- Sorting index-element pairs by a key of the element and dropping the
indices is the same as sorting the elements: the insertion conditions agree. -/
theorem map_snd_insertDescBy {α κ : Type} [LinearOrder κ] (key : α → κ)
    (p : Nat × α) (l : List (Nat × α)) :
    (insertDescBy (fun q => key q.2) p l).map Prod.snd =
      insertDescBy key p.2 (l.map Prod.snd) := by
  induction l with
  | nil => rfl
  | cons q qs ih =>
    by_cases h : key q.2 ≤ key p.2
    · simp [insertDescBy, h]
    · simp [insertDescBy, h, ih]

theorem map_snd_sortDescBy {α κ : Type} [LinearOrder κ] (key : α → κ)
    (l : List (Nat × α)) :
    (sortDescBy (fun q => key q.2) l).map Prod.snd = sortDescBy key (l.map Prod.snd) := by
  induction l with
  | nil => rfl
  | cons p ps ih => simp [sortDescBy, map_snd_insertDescBy, ih]

/-! ### Occurrence counts and first-occurrence order

These embed the ingredients of `collections.Counter`: `countOcc` is the
multiplicity of a value, `firstIdx` its first-occurrence position, and
`dedupKeys` the distinct values in first-occurrence order (the insertion
order of the `Counter` dict). -/

def countOcc {α : Type} [DecidableEq α] (l : List α) (a : α) : Nat :=
  (l.filter (fun x => x = a)).length

def firstIdx {α : Type} [DecidableEq α] : List α → α → Nat
  | [], _ => 0
  | x :: xs, a => if x = a then 0 else firstIdx xs a + 1

def dedupKeys {α : Type} [DecidableEq α] : List α → List α
  | [] => []
  | x :: xs => x :: (dedupKeys xs).filter (fun y => y ≠ x)

theorem mem_dedupKeys {α : Type} [DecidableEq α] (l : List α) (a : α) :
    a ∈ dedupKeys l ↔ a ∈ l := by
  induction l with
  | nil => simp [dedupKeys]
  | cons x xs ih =>
    simp only [dedupKeys, List.mem_cons, List.mem_filter, ih,
      decide_eq_true_eq, ne_eq]
    constructor
    · rintro (rfl | ⟨h1, _⟩)
      · exact Or.inl rfl
      · exact Or.inr h1
    · rintro (rfl | h1)
      · exact Or.inl rfl
      · by_cases hx : a = x
        · exact Or.inl hx
        · exact Or.inr ⟨h1, hx⟩

theorem nodup_dedupKeys {α : Type} [DecidableEq α] (l : List α) :
    (dedupKeys l).Nodup := by
  induction l with
  | nil => exact List.nodup_nil
  | cons x xs ih =>
    refine List.nodup_cons.mpr ⟨?_, ih.filter _⟩
    intro hx
    rcases List.mem_filter.mp hx with ⟨_, hne⟩
    simp at hne

theorem firstIdx_filter_lt {α : Type} [DecidableEq α] (p : α → Bool)
    (l : List α) (a b : α) (ha : a ∈ l.filter p) (hb : b ∈ l.filter p)
    (h : firstIdx (l.filter p) a < firstIdx (l.filter p) b) :
    firstIdx l a < firstIdx l b := by
  induction l with
  | nil => simp at ha
  | cons c t ih =>
    have hab : a ≠ b := by
      rintro rfl; exact lt_irrefl _ h
    by_cases hc : p c
    · have hfil : (c :: t).filter p = c :: t.filter p := by
        simp [List.filter_cons, hc]
      rw [hfil] at ha hb h
      by_cases hca : c = a
      · subst hca
        have hg1 : firstIdx (c :: t) c = 0 := by simp [firstIdx]
        have hg2 : firstIdx (c :: t) b = firstIdx t b + 1 := by simp [firstIdx, hab]
        omega
      · have hat : a ∈ t.filter p := by
          rcases List.mem_cons.mp ha with h' | h'
          · exact absurd h'.symm hca
          · exact h'
        have hcb : ¬(c = b) := by
          rintro rfl
          have hz1 : firstIdx (c :: t.filter p) c = 0 := by simp [firstIdx]
          have hz2 : firstIdx (c :: t.filter p) a = firstIdx (t.filter p) a + 1 := by
            simp [firstIdx, hca]
          omega
        have hbt : b ∈ t.filter p := by
          rcases List.mem_cons.mp hb with h' | h'
          · exact absurd h'.symm hcb
          · exact h'
        have ha1 : firstIdx (c :: t.filter p) a = firstIdx (t.filter p) a + 1 := by
          simp [firstIdx, hca]
        have hb1 : firstIdx (c :: t.filter p) b = firstIdx (t.filter p) b + 1 := by
          simp [firstIdx, hcb]
        have ha2 : firstIdx (c :: t) a = firstIdx t a + 1 := by simp [firstIdx, hca]
        have hb2 : firstIdx (c :: t) b = firstIdx t b + 1 := by simp [firstIdx, hcb]
        have := ih hat hbt (by omega)
        omega
    · have hfil : (c :: t).filter p = t.filter p := by
        simp [List.filter_cons, hc]
      rw [hfil] at ha hb h
      have hpa : p a = true := (List.mem_filter.mp ha).2
      have hpb : p b = true := (List.mem_filter.mp hb).2
      have hca : ¬(c = a) := fun e => hc (e ▸ hpa)
      have hcb : ¬(c = b) := fun e => hc (e ▸ hpb)
      have := ih ha hb h
      have ha2 : firstIdx (c :: t) a = firstIdx t a + 1 := by simp [firstIdx, hca]
      have hb2 : firstIdx (c :: t) b = firstIdx t b + 1 := by simp [firstIdx, hcb]
      omega

theorem pairwise_firstIdx_dedupKeys {α : Type} [DecidableEq α] (l : List α) :
    (dedupKeys l).Pairwise (fun a b => firstIdx l a < firstIdx l b) := by
  induction l with
  | nil => exact List.Pairwise.nil
  | cons x xs ih =>
    refine List.pairwise_cons.mpr ⟨?_, ?_⟩
    · intro b hb
      have hbx : b ≠ x := by
        have := (List.mem_filter.mp hb).2
        simpa using this
      have hxb : ¬(x = b) := fun e => hbx e.symm
      have h1 : firstIdx (x :: xs) x = 0 := by simp [firstIdx]
      have h2 : firstIdx (x :: xs) b = firstIdx xs b + 1 := by
        simp [firstIdx, hxb]
      omega
    · have hfil : ((dedupKeys xs).filter (fun y => y ≠ x)).Pairwise
          (fun a b => firstIdx xs a < firstIdx xs b) := ih.filter _
      refine hfil.imp_of_mem ?_
      intro a b ha hb hab
      have hax : ¬(x = a) := by
        have := (List.mem_filter.mp ha).2
        simp at this
        exact fun e => this e.symm
      have hbx : ¬(x = b) := by
        have := (List.mem_filter.mp hb).2
        simp at this
        exact fun e => this e.symm
      have h1 : firstIdx (x :: xs) a = firstIdx xs a + 1 := by simp [firstIdx, hax]
      have h2 : firstIdx (x :: xs) b = firstIdx xs b + 1 := by simp [firstIdx, hbx]
      omega

/-- Embedding of `Counter(l).most_common()` restricted to its keys
(`[k for k, _ in Counter(l).most_common()]`): the distinct values of `l` in
first-occurrence order (dict insertion order), stably sorted by descending
multiplicity. -/
def counterMostCommon {α : Type} [DecidableEq α] (l : List α) : List α :=
  sortDescBy (fun a => countOcc l a) (dedupKeys l)

theorem nodup_counterMostCommon {α : Type} [DecidableEq α] (l : List α) :
    (counterMostCommon l).Nodup :=
  ((perm_sortDescBy _ _).nodup_iff).mpr (nodup_dedupKeys l)

theorem mem_counterMostCommon {α : Type} [DecidableEq α] (l : List α) (a : α) :
    a ∈ counterMostCommon l ↔ a ∈ l := by
  rw [counterMostCommon, (perm_sortDescBy _ _).mem_iff, mem_dedupKeys]

theorem pairwise_counterMostCommon {α : Type} [DecidableEq α] (l : List α) :
    (counterMostCommon l).Pairwise
      (fun a b => countOcc l b < countOcc l a ∨
        (countOcc l a = countOcc l b ∧ firstIdx l a < firstIdx l b)) :=
  pairwise_sortDescBy (fun a => countOcc l a) (firstIdx l) (dedupKeys l)
    (pairwise_firstIdx_dedupKeys l)

/-! ## Shared low-level helpers

Character-level models of the Python string operations the sources use
(`str.strip`, `str.split(',')`, `int(...)`), written over `List Char` so that
every definition evaluates in the kernel. -/

def lbraceChar : Char := Char.ofNat 123

def rbraceChar : Char := Char.ofNat 125

def quoteChar : Char := Char.ofNat 34

def backslashChar : Char := Char.ofNat 92

def backtickChar : Char := Char.ofNat 96

def isSpaceChar (c : Char) : Bool :=
  c = ' ' ∨ c = '\t' ∨ c = '\n' ∨ c = '\r' ∨ c = Char.ofNat 11 ∨ c = Char.ofNat 12

def skipWs : List Char → List Char
  | [] => []
  | c :: cs => if isSpaceChar c then skipWs cs else c :: cs

/-- Model of Python `str.strip()`: drop whitespace from both ends. -/
def trimChars (cs : List Char) : List Char :=
  (skipWs ((skipWs cs).reverse)).reverse

/-- Model of Python `str.split(',')`. -/
def splitComma : List Char → List (List Char)
  | [] => [[]]
  | c :: cs =>
    let r := splitComma cs
    if c = ',' then [] :: r
    else
      match r with
      | h :: t => (c :: h) :: t
      | [] => [[c]]

def digitsToNatAux (acc : Nat) : List Char → Option Nat
  | [] => some acc
  | c :: cs => if c.isDigit then digitsToNatAux (acc * 10 + (c.toNat - 48)) cs else none

/-- Value of a nonempty all-digit character run. -/
def digitsToNat : List Char → Option Nat
  | [] => none
  | cs => digitsToNatAux 0 cs

/-- Model of Python `int(s)` on an already-stripped string: an optional sign
followed by at least one decimal digit.  (Python also accepts underscore
digit separators and non-ASCII digits; those never occur here.) -/
def parseIntChars : List Char → Option Int
  | '-' :: ds => (digitsToNat ds).map (fun n => -(n : Int))
  | '+' :: ds => (digitsToNat ds).map (fun n => (n : Int))
  | ds => (digitsToNat ds).map (fun n => (n : Int))

/-- Model of `List.mapM` over `Option`, embedding a Python loop that aborts on
the first raised exception. -/
def mapOption {α β : Type} (f : α → Option β) : List α → Option (List β)
  | [] => some []
  | x :: xs =>
    match f x, mapOption f xs with
    | some y, some ys => some (y :: ys)
    | _, _ => none

/-- Console messages printed by the two modules; each constructor is one
`print` site, carrying the data interpolated into the message. -/
inductive LogEvent where
  /-- asset_fetcher line 186-187: JSON parse warning, with the raw response text. -/
  | parseWarning (rawResponse : String)
  /-- asset_fetcher line 221: warning while processing a transcript. -/
  | transcriptProcessingError
  /-- asset_fetcher line 146: failed transcript retrieval for a video. -/
  | transcriptFetchError (videoId : String)
  /-- asset_fetcher line 264: missing simulation run date. -/
  | fetcherMissingRunDate
  /-- asset_purchaser line 47: neither quantity source supplied. -/
  | purchaserMissingAmounts
  /-- asset_purchaser line 26: price lookup failed for a ticker. -/
  | priceLookupError (ticker : String)
deriving DecidableEq

/-! ## Channel List Loader (`AssetFetcher.parseChannelFile`, lines 39-55) -/

structure ChannelRow where
  name : String
  channel_id : String
  priority : Int
deriving DecidableEq

/-- One row of the channel file:
`name, channel_id, priority = line.strip().split(',')` then
`(name.strip(), channel_id.strip(), int(priority.strip()))`.
`none` models the `ValueError` raised on a malformed row. -/
def parseChannelLine (line : String) : Option ChannelRow :=
  match splitComma (trimChars line.toList) with
  | [n, cid, p] =>
    match parseIntChars (trimChars p) with
    | some pr => some ⟨String.mk (trimChars n), String.mk (trimChars cid), pr⟩
    | none => none
  | _ => none

/-- Embedding of `parseChannelFile`: skip the header line (`next(f)`, which
raises on an empty file, modelled by `none`), parse every remaining row
(any malformed row fails the whole load), sort by priority descending
(`channels.sort(key=lambda x: x[2], reverse=True)`, a stable sort), and keep
`(name, channel_id)` pairs. -/
def parseChannelFile (lines : List String) : Option (List (String × String)) :=
  match lines with
  | [] => none
  | _header :: body =>
    match mapOption parseChannelLine body with
    | some rows =>
      some ((sortDescBy (fun r => r.priority) rows).map (fun r => (r.name, r.channel_id)))
    | none => none

/-! ## Video Discovery (`AssetFetcher.getVideoIdsFromChannels`, lines 57-121)

Timestamps are integer seconds; `timedelta(days=d)` is `d * 86400`.  A
channel's uploads feed is its list of pages (one page per `playlistItems`
response); a page has a `nextPageToken` exactly when it is not the last
element of the list. -/

structure FeedItem where
  videoId : String
  publishedAt : Int
deriving DecidableEq

def secondsPerDay : Int := 86400

/-- The `for item in playlist_items_response["items"]` loop (lines 103-115):
append ids inside the window `[threshold, run]`; on the first item strictly
older than the threshold, `break` (the accompanying `next_page_token = None`
is dead, see `pageChannelFeed`). -/
def processItems (thr run : Int) : List FeedItem → List String
  | [] => []
  | it :: rest =>
    if thr ≤ it.publishedAt ∧ it.publishedAt ≤ run then
      it.videoId :: processItems thr run rest
    else if it.publishedAt < thr then []
    else processItems thr run rest

/-- The `while True` paging loop (lines 95-119) over one channel.  Returns the
collected video ids and the number of pages fetched.  Line 117
(`next_page_token = playlist_items_response.get("nextPageToken")`)
unconditionally overwrites the `next_page_token = None` set by the
early-exit branch, so the loop always advances to the next page while one
exists: every page of the feed is fetched. -/
def pageChannelFeed (thr run : Int) : List (List FeedItem) → List String × Nat
  | [] => ([], 0)
  | page :: rest =>
    let ids := processItems thr run page
    match rest with
    | [] => (ids, 1)
    | r :: rs =>
      let more := pageChannelFeed thr run (r :: rs)
      (ids ++ more.1, more.2 + 1)

/-- Lines 70-77: choose the run date.  `simulation_mode = False` short-circuits
to the current time without touching the attribute; otherwise the
`self.__simulation_run_date` attribute is read, and reading it when it was
never assigned raises `AttributeError` (the constructor only assigns it when a
date was supplied). -/
def resolveRunDate (simulation_mode : Bool) (runDateAttr : Option Int)
    (now : Int) : Except String Int :=
  if !simulation_mode then Except.ok now
  else
    match runDateAttr with
    | none => Except.error "AttributeError"
    | some d => Except.ok d

/-- Embedding of `getVideoIdsFromChannels`: resolve the run date, compute the
threshold `run - delta_video_days days`, and collect ids channel by channel
in list order.  `feedsOf` is the remote feed service: channel id to pages. -/
def getVideoIdsFromChannels (feedsOf : String → List (List FeedItem))
    (simulation_mode : Bool) (runDateAttr : Option Int) (now : Int)
    (deltaVideoDays : Int) (channel_list : List (String × String)) :
    Except String (List String) :=
  match resolveRunDate simulation_mode runDateAttr now with
  | Except.error e => Except.error e
  | Except.ok run =>
    Except.ok ((channel_list.map (fun c =>
      (pageChannelFeed (run - deltaVideoDays * secondsPerDay) run (feedsOf c.2)).1)).flatten)

/-! ## JSON values and `json.loads`

A model of the strict-mode `json.loads` used on the model response
(asset_fetcher line 181).  The grammar is covered except for: `\uXXXX`
string escapes, fractional/exponent number forms, and the rejection of
leading zeros — none of which occur in any input considered here. -/

inductive Json where
  | null
  | bool (b : Bool)
  | num (n : Int)
  | str (s : String)
  | arr (elems : List Json)
  | obj (fields : List (String × Json))

def isJsonWs (c : Char) : Bool :=
  c = ' ' ∨ c = '\t' ∨ c = '\n' ∨ c = '\r'

def skipJsonWs : List Char → List Char
  | [] => []
  | c :: cs => if isJsonWs c then skipJsonWs cs else c :: cs

def escChar (c : Char) : Option Char :=
  if c = quoteChar then some quoteChar
  else if c = backslashChar then some backslashChar
  else if c = '/' then some '/'
  else if c = 'n' then some '\n'
  else if c = 't' then some '\t'
  else if c = 'r' then some '\r'
  else if c = 'b' then some (Char.ofNat 8)
  else if c = 'f' then some (Char.ofNat 12)
  else none

/-- Body of a JSON string after the opening quote: content characters up to
the closing quote, processing backslash escapes; control characters are
invalid (strict mode). -/
def parseStrBody : List Char → Option (List Char × List Char)
  | [] => none
  | c :: cs =>
    if c = quoteChar then some ([], cs)
    else if c = backslashChar then
      match cs with
      | [] => none
      | e :: cs2 =>
        match escChar e with
        | some ec => (parseStrBody cs2).map (fun p => (ec :: p.1, p.2))
        | none => none
    else if c.toNat < 32 then none
    else (parseStrBody cs).map (fun p => (c :: p.1, p.2))

/-- A nonempty run of decimal digits and its value. -/
def parseDigitsRun (cs : List Char) : Option (Nat × List Char) :=
  let ds := cs.takeWhile Char.isDigit
  if ds.isEmpty then none
  else some (ds.foldl (fun a c => a * 10 + (c.toNat - 48)) 0, cs.dropWhile Char.isDigit)

/-- Recursive-descent JSON value parser.  `fuel` bounds the recursion depth;
`jsonLoads` supplies enough for any input.  Member and element lists are
parsed by re-entering the object/array branch on a reassembled input
(`lbraceChar :: rest` / `'[' :: rest`), which keeps the recursion structural. -/
def parseVal : Nat → List Char → Option (Json × List Char)
  | 0, _ => none
  | _ + 1, [] => none
  | fuel + 1, c :: rest =>
    if c = lbraceChar then
      match skipJsonWs rest with
      | [] => none
      | c2 :: rest2 =>
        if c2 = rbraceChar then some (Json.obj [], rest2)
        else if c2 = quoteChar then
          match parseStrBody rest2 with
          | none => none
          | some (key, r1) =>
            match skipJsonWs r1 with
            | [] => none
            | c3 :: r2 =>
              if c3 = ':' then
                match parseVal fuel (skipJsonWs r2) with
                | none => none
                | some (v, r3) =>
                  match skipJsonWs r3 with
                  | [] => none
                  | c4 :: r4 =>
                    if c4 = rbraceChar then
                      some (Json.obj [(String.mk key, v)], r4)
                    else if c4 = ',' then
                      match skipJsonWs r4 with
                      | [] => none
                      | c5 :: _ =>
                        if c5 = quoteChar then
                          match parseVal fuel (lbraceChar :: r4) with
                          | some (Json.obj fs, r5) =>
                            some (Json.obj ((String.mk key, v) :: fs), r5)
                          | _ => none
                        else none
                    else none
              else none
        else none
    else if c = '[' then
      match skipJsonWs rest with
      | [] => none
      | c2 :: rest2 =>
        if c2 = ']' then some (Json.arr [], rest2)
        else
          match parseVal fuel (c2 :: rest2) with
          | none => none
          | some (v, r1) =>
            match skipJsonWs r1 with
            | [] => none
            | c3 :: r2 =>
              if c3 = ']' then some (Json.arr [v], r2)
              else if c3 = ',' then
                match skipJsonWs r2 with
                | [] => none
                | c4 :: _ =>
                  if c4 = ']' then none
                  else
                    match parseVal fuel ('[' :: r2) with
                    | some (Json.arr vs, r3) => some (Json.arr (v :: vs), r3)
                    | _ => none
              else none
    else if c = quoteChar then
      (parseStrBody rest).map (fun p => (Json.str (String.mk p.1), p.2))
    else if c = 't' then
      match rest with
      | 'r' :: 'u' :: 'e' :: r => some (Json.bool true, r)
      | _ => none
    else if c = 'f' then
      match rest with
      | 'a' :: 'l' :: 's' :: 'e' :: r => some (Json.bool false, r)
      | _ => none
    else if c = 'n' then
      match rest with
      | 'u' :: 'l' :: 'l' :: r => some (Json.null, r)
      | _ => none
    else if c = '-' then
      match parseDigitsRun rest with
      | some (n, r) => some (Json.num (-(n : Int)), r)
      | none => none
    else
      match parseDigitsRun (c :: rest) with
      | some (n, r) => some (Json.num ((n : Int)), r)
      | none => none

/-- Model of `json.loads`: skip surrounding whitespace, parse one value, and
reject trailing data. -/
def jsonLoads (s : String) : Option Json :=
  let cs := skipJsonWs s.toList
  match parseVal (cs.length + 1) cs with
  | some (v, rest) => if (skipJsonWs rest).isEmpty then some v else none
  | none => none

/-! ## Recommendation Extractor
(`AssetFetcher.extractRecommendationsFromTranscript`, lines 150-189) -/

/-- First alternative of the line-174 `re.sub`:
`^\s*BTBTBT(?:json)?\s*` (BTBTBT = three backticks, case-insensitive `json`).
It can only match at the start of the string. -/
def stripLeadingFence (cs : List Char) : List Char :=
  match skipWs cs with
  | a :: b :: c :: r =>
    if a = backtickChar ∧ b = backtickChar ∧ c = backtickChar then
      let r2 :=
        match r with
        | j :: s :: o :: n :: r3 =>
          if j.toLower = 'j' ∧ s.toLower = 's' ∧ o.toLower = 'o' ∧ n.toLower = 'n' then
            r3
          else r
        | _ => r
      skipWs r2
    else cs
  | _ => cs

/-- Second alternative of the line-174 `re.sub`: a three-backtick fence
followed only by whitespace up to the end of the string (at most one such
match can exist; the regex removes the fence and the trailing whitespace). -/
def stripTrailingFence (cs : List Char) : List Char :=
  match skipWs cs.reverse with
  | c1 :: c2 :: c3 :: r =>
    if c1 = backtickChar ∧ c2 = backtickChar ∧ c3 = backtickChar then r.reverse
    else cs
  | _ => cs

/-- Line 174: `re.sub(...)` followed by `.strip()`. -/
def cleanedText (cs : List Char) : List Char :=
  trimChars (stripTrailingFence (stripLeadingFence cs))

/-- Line 176: `re.search(r"\x7b.*\x7d", s, re.DOTALL)` — with a greedy `.*`,
the match (if any) runs from the first left brace to the last right brace of
the string, and exists exactly when some right brace follows the first left
brace. -/
def findBracesSub (cs : List Char) : Option (List Char) :=
  match cs.dropWhile (fun c => c ≠ lbraceChar) with
  | [] => none
  | c :: after =>
    match (after.reverse.dropWhile (fun d => d ≠ rbraceChar)).reverse with
    | [] => none
    | kept => some (c :: kept)

/-- Python `dict.get` after `json.loads`: on duplicate keys `json.loads`
keeps the last occurrence, so lookup is last-wins. -/
def lookupLast (fields : List (String × Json)) (k : String) : Option Json :=
  fields.foldl (fun acc f => if f.1 = k then some f.2 else acc) none

def recommendedStocksKey : String := "recommended_stocks"

/-- Lines 182-184: `resp_json.get("recommended_stocks", [])` followed by the
`isinstance(stocks, list)` check.  Calling `.get` on a non-dict raises
`AttributeError` (modelled by `none`), which the enclosing `except` catches
like a parse failure. -/
def extractStocksField : Json → Option (List Json)
  | Json.obj fields =>
    some
      (match lookupLast fields recommendedStocksKey with
       | some (Json.arr xs) => xs
       | some _ => []
       | none => [])
  | _ => none

/-- Result of one `extractRecommendationsFromTranscript` call: the console
output and either the returned `stocks` list, or `none` when the function
raises.  On any parse failure the `except` block logs the warning and the raw
response text but never assigns `stocks`, so the final `return stocks` raises
`UnboundLocalError` — `none` is that raise, not a clean return. -/
structure ExtractOutcome where
  logs : List LogEvent
  result : Option (List Json)

/-- Embedding of `extractRecommendationsFromTranscript`, starting from the
model response text (line 171 onward; the prompt construction and the
network call do not affect the result).  `responseText` is `response.text`. -/
def extractRecommendationsFromTranscript (responseText : String) : ExtractOutcome :=
  let respText := trimChars responseText.toList
  let cleaned := cleanedText respText
  let finalTxt :=
    match findBracesSub cleaned with
    | some sub => sub
    | none => cleaned
  match jsonLoads (String.mk finalTxt) with
  | some j =>
    match extractStocksField j with
    | some stocks => ⟨[], some stocks⟩
    | none => ⟨[LogEvent.parseWarning (String.mk respText)], none⟩
  | none => ⟨[LogEvent.parseWarning (String.mk respText)], none⟩

/-- Lines 216-223 of `identifyAssetsFromTranscript`: one loop iteration.  The
`try`/`except` around the call catches the `UnboundLocalError` escaping
`extractRecommendationsFromTranscript`, logs a processing warning, and
substitutes `stocks = []`, so the run continues. -/
def processTranscriptResponse (responseText : String) : List LogEvent × List Json :=
  let o := extractRecommendationsFromTranscript responseText
  match o.result with
  | some stocks => (o.logs, stocks)
  | none => (o.logs ++ [LogEvent.transcriptProcessingError], [])

/-- The whole extraction loop: `all_stocks.extend(stocks)` per transcript,
in order.  `responses` holds the model's response text per transcript. -/
def collectAllStocks : List String → List LogEvent × List Json
  | [] => ([], [])
  | r :: rs =>
    let p := processTranscriptResponse r
    let q := collectAllStocks rs
    (p.1 ++ q.1, p.2 ++ q.2)

/-! ## Recommendation Aggregator (lines 215-229)

`counts = Counter(all_stocks)` then
`sorted_stocks = [stock for stock, _ in counts.most_common()]`.
The aggregation is stated over per-transcript ticker lists, the shape the
extractor produces on well-formed responses.  (If a response smuggled an
unhashable value into a stocks list, `Counter` itself would raise; that path
is outside this model.) -/

def aggregateRecommendations (perTranscript : List (List String)) : List String :=
  counterMostCommon perTranscript.flatten

/-- The JSON scalars, the values `Counter` can key on.  `Counter(all_stocks)`
hashes each stock value, so an unhashable value (a nested list or object)
raises `TypeError` outside any `try`.  (Python would further identify
`True`/`1`/`1.0` as equal dict keys; the values here are ticker strings, so
that identification is not modelled.) -/
inductive StockValue where
  | str (s : String)
  | num (n : Int)
  | bool (b : Bool)
  | null
deriving DecidableEq

def toHashableStock : Json → Option StockValue
  | Json.str s => some (StockValue.str s)
  | Json.num n => some (StockValue.num n)
  | Json.bool b => some (StockValue.bool b)
  | Json.null => some StockValue.null
  | _ => none

/-- Full `identifyAssetsFromTranscript` over response texts: collect the
per-transcript stocks, then `Counter` + `most_common` (which raises
`TypeError` on an unhashable stock value). -/
def identifyAssetsFromTranscript (responses : List String) :
    List LogEvent × Except String (List StockValue) :=
  let p := collectAllStocks responses
  match mapOption toHashableStock p.2 with
  | some hs => (p.1, Except.ok (counterMostCommon hs))
  | none => (p.1, Except.error "TypeError")

/-! ## Transcript Retrieval (`getTranscriptsFromVideoIds`, lines 123-148) -/

/-- Fetch transcripts one by one; a failed fetch (`transcriptOf v = none`,
any exception in the Python) is logged and skipped. -/
def getTranscriptsFromVideoIds (transcriptOf : String → Option String) :
    List String → List LogEvent × List String
  | [] => ([], [])
  | v :: vs =>
    let rest := getTranscriptsFromVideoIds transcriptOf vs
    match transcriptOf v with
    | some t => (rest.1, t :: rest.2)
    | none => (LogEvent.transcriptFetchError v :: rest.1, rest.2)

/-! ## `fetchAssets` and the `AssetFetcher` constructor (lines 231-271) -/

/-- The remote services `fetchAssets` depends on. -/
structure FetcherEnv where
  feedsOf : String → List (List FeedItem)
  transcriptOf : String → Option String
  responseOf : String → String

/-- Embedding of `fetchAssets`: parse the channel file, discover videos,
fetch transcripts, extract and aggregate recommendations.  An uncaught
exception at any stage (malformed channel file, or the `AttributeError` from
`getVideoIdsFromChannels`) propagates as `Except.error`. -/
def fetchAssets (env : FetcherEnv) (channelLines : List String)
    (simulation_mode : Bool) (runDateAttr : Option Int) (now : Int)
    (deltaVideoDays : Int) : List LogEvent × Except String (List StockValue) :=
  match parseChannelFile channelLines with
  | none => ([], Except.error "ValueError")
  | some channels =>
    match getVideoIdsFromChannels env.feedsOf simulation_mode runDateAttr now
        deltaVideoDays channels with
    | Except.error e => ([], Except.error e)
    | Except.ok videoIds =>
      let ts := getTranscriptsFromVideoIds env.transcriptOf videoIds
      let recs := identifyAssetsFromTranscript (ts.2.map env.responseOf)
      (ts.1 ++ recs.1, recs.2)

/-- Embedding of `AssetFetcher.__init__` (lines 259-271).  With
`simulation_mode` set and no `simulation_run_date`, it only logs — there is no
`return`, so it still assigns the remaining fields (leaving
`__simulation_run_date` unassigned) and invokes `fetchAssets`. -/
def assetFetcherInit (env : FetcherEnv) (channelLines : List String)
    (deltaVideoDays : Int) (simulation_mode : Bool)
    (simulation_run_date : Option Int) (now : Int) :
    List LogEvent × Except String (List StockValue) :=
  let initLogs :=
    if simulation_mode ∧ simulation_run_date = none then
      [LogEvent.fetcherMissingRunDate]
    else []
  let runDateAttr := if simulation_mode then simulation_run_date else none
  let r := fetchAssets env channelLines simulation_mode runDateAttr now deltaVideoDays
  (initLogs ++ r.1, r.2)

/-! ## Asset Purchaser (`asset_purchaser.py`)

Prices and purchase quantities are carried through unchanged (the code only
compares a price against the sentinel `-1.0` and interpolates both into the
ledger row), so both are modelled as `Int` with the sentinel `-1`.  The
ledger row written by the `f"{asset}, {ticker_price}, {purchase_quantity},
{expiration_date}\n"` format is modelled as a record, and the expiration
date `datetime.now() + timedelta(days=valid_purchase_days)` as
`now + valid_purchase_days` in days. -/

structure LedgerRow where
  asset : String
  price : Int
  quantity : Int
  expiration : Int
deriving DecidableEq

/-- Observable behaviour of one `AssetPurchaser` construction: console
output, whether the ledger file was opened, which tickers were priced (in
order), and the rows appended (in order). -/
structure PurchaserOutcome where
  logs : List LogEvent
  fileOpened : Bool
  priceLookups : List String
  ledger : List LedgerRow
deriving DecidableEq

/-- `__get_stock_price` (lines 7-14): the last close from the price service,
or `-1.0` when the history is empty.  `priceEnv` is the `yfinance` service. -/
def getStockPrice (priceEnv : String → Option Int) (ticker_symbol : String) : Int :=
  match priceEnv ticker_symbol with
  | some p => p
  | none => -1

/-- `__purchase_asset` (lines 16-29): in simulation mode, price the asset
(logging an error on the `-1.0` sentinel) and append one ledger row; outside
simulation mode, do nothing at all. -/
def purchaseAsset (priceEnv : String → Option Int) (simulation_mode : Bool)
    (asset : String) (purchase_quantity : Int) (expiration_date : Int) :
    List LogEvent × List String × List LedgerRow :=
  if simulation_mode then
    let ticker_price := getStockPrice priceEnv asset
    let lg :=
      if ticker_price = -1 then [LogEvent.priceLookupError asset] else []
    (lg, [asset], [⟨asset, ticker_price, purchase_quantity, expiration_date⟩])
  else ([], [], [])

/-- The `for asset, purchase_quantity in zip(...)` loop body of
`__purchase_assets` (lines 31-38), over the zipped pairs. -/
def purchasePairs (priceEnv : String → Option Int) (simulation_mode : Bool)
    (expiration_date : Int) : List (String × Int) →
    List LogEvent × List String × List LedgerRow
  | [] => ([], [], [])
  | (a, q) :: rest =>
    let one := purchaseAsset priceEnv simulation_mode a q expiration_date
    let more := purchasePairs priceEnv simulation_mode expiration_date rest
    (one.1 ++ more.1, one.2.1 ++ more.2.1, one.2.2 ++ more.2.2)

/-- Embedding of `AssetPurchaser.__init__` (lines 40-61).  With neither
`asset_purchase_amounts` nor `universal_purchase_amount`, it logs and
returns before opening the ledger file or purchasing; otherwise it fills the
amounts (`[universal_purchase_amount] * len(assets)` if needed), opens the
ledger file when in simulation mode, and runs `__purchase_assets`, whose
expiration date is `now + valid_purchase_days`. -/
def assetPurchaserInit (priceEnv : String → Option Int) (now : Int)
    (assets : List String) (valid_purchase_days : Int)
    (asset_purchase_amounts : Option (List Int))
    (universal_purchase_amount : Option Int)
    (simulation_mode : Bool) : PurchaserOutcome :=
  let amounts? :=
    match asset_purchase_amounts with
    | some l => some l
    | none =>
      match universal_purchase_amount with
      | some u => some (List.replicate assets.length u)
      | none => none
  match amounts? with
  | none => ⟨[LogEvent.purchaserMissingAmounts], false, [], []⟩
  | some amounts =>
    let expiration_date := now + valid_purchase_days
    let r := purchasePairs priceEnv simulation_mode expiration_date (assets.zip amounts)
    ⟨r.1, simulation_mode, r.2.1, r.2.2⟩

/-! ## Purchaser lemmas -/

theorem purchasePairs_sim (priceEnv : String → Option Int) (exp : Int)
    (pairs : List (String × Int)) :
    purchasePairs priceEnv true exp pairs =
      ((pairs.filter (fun p => getStockPrice priceEnv p.1 = -1)).map
          (fun p => LogEvent.priceLookupError p.1),
        pairs.map Prod.fst,
        pairs.map (fun p => ⟨p.1, getStockPrice priceEnv p.1, p.2, exp⟩)) := by
  induction pairs with
  | nil => rfl
  | cons p ps ih =>
    obtain ⟨a, q⟩ := p
    by_cases h : getStockPrice priceEnv a = -1
    · simp [purchasePairs, purchaseAsset, h, ih, List.filter_cons]
    · simp [purchasePairs, purchaseAsset, h, ih, List.filter_cons]

theorem purchasePairs_nosim (priceEnv : String → Option Int) (exp : Int)
    (pairs : List (String × Int)) :
    purchasePairs priceEnv false exp pairs = ([], [], []) := by
  induction pairs with
  | nil => rfl
  | cons p ps ih =>
    obtain ⟨a, q⟩ := p
    simp [purchasePairs, purchaseAsset, ih]

theorem zip_replicate_self {α β : Type} (l : List α) (u : β) :
    l.zip (List.replicate l.length u) = l.map (fun a => (a, u)) := by
  induction l with
  | nil => rfl
  | cons x xs ih => simp [List.replicate, ih]

theorem map_fst_zip_eq_take {α β : Type} :
    ∀ (l1 : List α) (l2 : List β),
      (l1.zip l2).map Prod.fst = l1.take (min l1.length l2.length)
  | [], _ => by simp
  | _ :: _, [] => by simp
  | a :: l1, b :: l2 => by
    simp [map_fst_zip_eq_take l1 l2, Nat.succ_min_succ]

theorem purchasePairs_sim_universal (priceEnv : String → Option Int)
    (exp u : Int) (assets : List String) :
    purchasePairs priceEnv true exp (assets.map (fun a => (a, u))) =
      ((assets.filter (fun x => getStockPrice priceEnv x = -1)).map
          (fun x => LogEvent.priceLookupError x),
        assets,
        assets.map (fun x => (⟨x, getStockPrice priceEnv x, u, exp⟩ : LedgerRow))) := by
  induction assets with
  | nil => rfl
  | cons x xs ih =>
    by_cases h : getStockPrice priceEnv x = -1 <;>
      simp [purchasePairs, purchaseAsset, h, ih, List.filter_cons]

/-! ## Claims about the Asset Purchaser -/

/-- Claim C6: constructing the Asset Purchaser with
`asset_purchase_amounts = None` and `universal_purchase_amount = None` fails
immediately: the error is logged and the constructor returns without opening
the ledger file, looking up any price, or appending any row. -/
theorem C6_purchaser_missing_amounts_aborts (priceEnv : String → Option Int)
    (now : Int) (assets : List String) (valid_purchase_days : Int)
    (simulation_mode : Bool) :
    (assetPurchaserInit priceEnv now assets valid_purchase_days none none
        simulation_mode).logs = [LogEvent.purchaserMissingAmounts] ∧
    (assetPurchaserInit priceEnv now assets valid_purchase_days none none
        simulation_mode).fileOpened = false ∧
    (assetPurchaserInit priceEnv now assets valid_purchase_days none none
        simulation_mode).priceLookups = [] ∧
    (assetPurchaserInit priceEnv now assets valid_purchase_days none none
        simulation_mode).ledger = [] :=
  ⟨rfl, rfl, rfl, rfl⟩

/-- Claim C7: in simulation mode with a universal purchase amount, every
asset whose price lookup fails gets a logged error and still gets its ledger
rows: a row with the sentinel price `-1`, the requested quantity, and the
computed expiration date is appended, one row per occurrence of the asset. -/
theorem C7_failed_price_lookup_still_appends (priceEnv : String → Option Int)
    (now : Int) (assets : List String) (valid_purchase_days : Int) (u : Int)
    (a : String) (ha : a ∈ assets) (hfail : priceEnv a = none) :
    LogEvent.priceLookupError a ∈
      (assetPurchaserInit priceEnv now assets valid_purchase_days none (some u)
        true).logs ∧
    (⟨a, -1, u, now + valid_purchase_days⟩ : LedgerRow) ∈
      (assetPurchaserInit priceEnv now assets valid_purchase_days none (some u)
        true).ledger ∧
    ((assetPurchaserInit priceEnv now assets valid_purchase_days none (some u)
        true).ledger.filter (fun r => r.asset = a)).length =
      (assets.filter (fun x => x = a)).length := by
  have hprice : getStockPrice priceEnv a = -1 := by
    simp [getStockPrice, hfail]
  simp only [assetPurchaserInit, zip_replicate_self, purchasePairs_sim_universal]
  refine ⟨?_, ?_, ?_⟩
  · simp only [List.mem_map]
    exact ⟨a, List.mem_filter.mpr ⟨ha, by simp [hprice]⟩, rfl⟩
  · simp only [List.mem_map]
    exact ⟨a, ha, by simp [hprice]⟩
  · rw [List.filter_map, List.length_map]
    congr 1

/-- Claim C9: constructing the Asset Purchaser with `simulation_mode = False`
has no observable effect, for every input: the ledger file is not opened, no
row is written, and no price lookup happens. -/
theorem C9_non_simulation_no_effects (priceEnv : String → Option Int)
    (now : Int) (assets : List String) (valid_purchase_days : Int)
    (asset_purchase_amounts : Option (List Int))
    (universal_purchase_amount : Option Int) :
    (assetPurchaserInit priceEnv now assets valid_purchase_days
        asset_purchase_amounts universal_purchase_amount false).fileOpened = false ∧
    (assetPurchaserInit priceEnv now assets valid_purchase_days
        asset_purchase_amounts universal_purchase_amount false).priceLookups = [] ∧
    (assetPurchaserInit priceEnv now assets valid_purchase_days
        asset_purchase_amounts universal_purchase_amount false).ledger = [] := by
  cases asset_purchase_amounts <;> cases universal_purchase_amount <;>
    simp [assetPurchaserInit, purchasePairs_nosim]

/-- Claim C10: when `asset_purchase_amounts` is supplied with a length
different from `assets`, construction does not fail; the `zip` silently
truncates to the first `min` pairs, so exactly the first
`min(len(assets), len(asset_purchase_amounts))` assets are priced and get
ledger rows, and assets beyond the shorter list are untouched. -/
theorem C10_mismatched_lengths_truncate (priceEnv : String → Option Int)
    (now : Int) (assets : List String) (valid_purchase_days : Int)
    (amounts : List Int) (universal_purchase_amount : Option Int)
    (_hlen : amounts.length ≠ assets.length) :
    (assetPurchaserInit priceEnv now assets valid_purchase_days (some amounts)
        universal_purchase_amount true).priceLookups =
      assets.take (min assets.length amounts.length) ∧
    (assetPurchaserInit priceEnv now assets valid_purchase_days (some amounts)
        universal_purchase_amount true).ledger.map (fun r => r.asset) =
      assets.take (min assets.length amounts.length) ∧
    (assetPurchaserInit priceEnv now assets valid_purchase_days (some amounts)
        universal_purchase_amount true).ledger.length =
      min assets.length amounts.length := by
  simp only [assetPurchaserInit, purchasePairs_sim]
  refine ⟨map_fst_zip_eq_take assets amounts, ?_, ?_⟩
  · rw [List.map_map]
    have : ((fun r : LedgerRow => r.asset) ∘
        (fun p : String × Int =>
          (⟨p.1, getStockPrice priceEnv p.1, p.2, now + valid_purchase_days⟩ :
            LedgerRow))) = Prod.fst := rfl
    rw [this, map_fst_zip_eq_take assets amounts]
  · rw [List.length_map, List.length_zip]

/-! ### Concrete purchaser scenarios -/

/-- A concrete price service: knows a price for AAPL, fails for everything
else (the spec §8 scenario: a failing lookup for MU). -/
def wPriceEnv : String → Option Int := fun t => if t = "AAPL" then some 150 else none

def wAssets : List String := ["AAPL", "MU", "TSM"]

def wAmounts : List Int := [10, 20]

/-- Witness for C7: the spec §8 scenario — assets `["AAPL", "MU"]`, universal
amount `1000`, failing lookup for MU — logs the MU error and appends the MU
row with sentinel price `-1`. -/
theorem C7_failed_price_lookup_still_appends_witness :
    ("MU" ∈ ["AAPL", "MU"] ∧ wPriceEnv "MU" = none) ∧
    (LogEvent.priceLookupError "MU" ∈
      (assetPurchaserInit wPriceEnv 20000 ["AAPL", "MU"] 4 none (some 1000)
        true).logs ∧
    (⟨"MU", -1, 1000, 20000 + 4⟩ : LedgerRow) ∈
      (assetPurchaserInit wPriceEnv 20000 ["AAPL", "MU"] 4 none (some 1000)
        true).ledger ∧
    ((assetPurchaserInit wPriceEnv 20000 ["AAPL", "MU"] 4 none (some 1000)
        true).ledger.filter (fun r => r.asset = "MU")).length =
      (["AAPL", "MU"].filter (fun x => x = "MU")).length) :=
  ⟨⟨by decide, by decide⟩,
    C7_failed_price_lookup_still_appends wPriceEnv 20000 ["AAPL", "MU"] 4 1000
      "MU" (by decide) (by decide)⟩

/-- Witness for C10: three assets, two amounts — only the first two pairs are
priced and recorded. -/
theorem C10_mismatched_lengths_truncate_witness :
    (wAmounts.length ≠ wAssets.length) ∧
    ((assetPurchaserInit wPriceEnv 0 wAssets 4 (some wAmounts) none
        true).priceLookups = wAssets.take (min wAssets.length wAmounts.length) ∧
    (assetPurchaserInit wPriceEnv 0 wAssets 4 (some wAmounts) none
        true).ledger.map (fun r => r.asset) =
      wAssets.take (min wAssets.length wAmounts.length) ∧
    (assetPurchaserInit wPriceEnv 0 wAssets 4 (some wAmounts) none
        true).ledger.length = min wAssets.length wAmounts.length) :=
  ⟨by decide,
    C10_mismatched_lengths_truncate wPriceEnv 0 wAssets 4 wAmounts none (by decide)⟩

/-! ## Claims about the Recommendation Aggregator and the Channel Loader -/

/-- Claim C3: for every sequence of per-transcript ticker lists, the
aggregator's output lists each distinct ticker exactly once (no duplicates,
and a ticker appears iff it occurs in some input list), ordered by descending
occurrence count over the concatenation, with equal counts ordered by first
occurrence in the concatenated stream; on the spec's example inputs the
output is exactly `["AAPL", "MU", "TSM"]`. -/
theorem C3_aggregator_unique_ordered (perTranscript : List (List String)) :
    (aggregateRecommendations perTranscript).Nodup ∧
    (∀ a, a ∈ aggregateRecommendations perTranscript ↔ a ∈ perTranscript.flatten) ∧
    (aggregateRecommendations perTranscript).Pairwise
      (fun a b =>
        countOcc perTranscript.flatten b < countOcc perTranscript.flatten a ∨
        (countOcc perTranscript.flatten a = countOcc perTranscript.flatten b ∧
          firstIdx perTranscript.flatten a < firstIdx perTranscript.flatten b)) ∧
    aggregateRecommendations [["AAPL", "MU"], ["MU", "TSM"], ["AAPL"]] =
      ["AAPL", "MU", "TSM"] :=
  ⟨nodup_counterMostCommon _, fun a => mem_counterMostCommon _ a,
    pairwise_counterMostCommon _, by decide⟩

/-- Claim C4: for every well-formed channel file, the loader returns the rows
sorted by priority descending, and rows with equal priority keep their file
order: the output is the projection of a permutation of the input rows that
is pairwise ordered by (strictly greater priority, or equal priority and
strictly smaller file position). -/
theorem C4_channel_loader_sorted_stable (header : String) (body : List String)
    (rows : List ChannelRow)
    (hrows : mapOption parseChannelLine body = some rows) :
    parseChannelFile (header :: body) =
      some ((sortDescBy (fun p => p.2.priority) (enumFrom 0 rows)).map
        (fun p => (p.2.name, p.2.channel_id))) ∧
    ((sortDescBy (fun p => p.2.priority) (enumFrom 0 rows)).map Prod.snd).Perm rows ∧
    (sortDescBy (fun p => p.2.priority) (enumFrom 0 rows)).Pairwise
      (fun a b => b.2.priority < a.2.priority ∨
        (a.2.priority = b.2.priority ∧ a.1 < b.1)) := by
  have hsnd : (sortDescBy (fun p : Nat × ChannelRow => p.2.priority)
      (enumFrom 0 rows)).map Prod.snd =
      sortDescBy (fun r : ChannelRow => r.priority) rows := by
    rw [map_snd_sortDescBy, map_snd_enumFrom]
  refine ⟨?_, ?_, ?_⟩
  · simp only [parseChannelFile, hrows]
    rw [← hsnd, List.map_map]
    rfl
  · rw [hsnd]
    exact perm_sortDescBy _ rows
  · exact pairwise_sortDescBy (fun p => p.2.priority) Prod.fst (enumFrom 0 rows)
      (pairwise_fst_enumFrom 0 rows)

def wChannelBody : List String := ["A,id1,1", "B,id2,5", "C,id3,5"]

def wChannelRows : List ChannelRow :=
  [⟨"A", "id1", 1⟩, ⟨"B", "id2", 5⟩, ⟨"C", "id3", 5⟩]

/-- Witness for C4 on the spec §8 file `A,id1,1 / B,id2,5 / C,id3,5`. -/
theorem C4_channel_loader_sorted_stable_witness :
    (mapOption parseChannelLine wChannelBody = some wChannelRows) ∧
    (parseChannelFile ("name,channel_id,priority" :: wChannelBody) =
      some ((sortDescBy (fun p => p.2.priority) (enumFrom 0 wChannelRows)).map
        (fun p => (p.2.name, p.2.channel_id))) ∧
    ((sortDescBy (fun p => p.2.priority) (enumFrom 0 wChannelRows)).map
      Prod.snd).Perm wChannelRows ∧
    (sortDescBy (fun p => p.2.priority) (enumFrom 0 wChannelRows)).Pairwise
      (fun a b => b.2.priority < a.2.priority ∨
        (a.2.priority = b.2.priority ∧ a.1 < b.1))) :=
  ⟨by decide,
    C4_channel_loader_sorted_stable "name,channel_id,priority" wChannelBody
      wChannelRows (by decide)⟩

/-! ## Video Discovery lemmas -/

/-- On a page sorted newest-to-oldest, the item loop (early-`break`
included) keeps exactly the in-window items: everything after the first
too-old item is at least as old, hence also out of window. -/
theorem processItems_sorted (thr run : Int) (items : List FeedItem)
    (hsorted : items.Pairwise (fun a b => b.publishedAt ≤ a.publishedAt)) :
    processItems thr run items =
      (items.filter (fun it => thr ≤ it.publishedAt ∧ it.publishedAt ≤ run)).map
        (fun it => it.videoId) := by
  induction items with
  | nil => rfl
  | cons it rest ih =>
    rcases List.pairwise_cons.mp hsorted with ⟨hhead, hrest⟩
    by_cases hin : thr ≤ it.publishedAt ∧ it.publishedAt ≤ run
    · simp only [processItems, if_pos hin, List.filter_cons,
        decide_eq_true_eq, hin, if_pos, ih hrest, List.map_cons]
      simp
    · by_cases hold : it.publishedAt < thr
      · have hfilter : (it :: rest).filter
            (fun x => thr ≤ x.publishedAt ∧ x.publishedAt ≤ run) = [] := by
          rw [List.filter_eq_nil_iff]
          intro x hx
          simp only [decide_eq_true_eq]
          rcases List.mem_cons.mp hx with rfl | hx'
          · omega
          · have := hhead x hx'
            omega
        rw [hfilter]
        simp [processItems, hin, hold]
      · have hfc : (it :: rest).filter
            (fun x => thr ≤ x.publishedAt ∧ x.publishedAt ≤ run) =
            rest.filter (fun x => thr ≤ x.publishedAt ∧ x.publishedAt ≤ run) := by
          simp [List.filter_cons, hin]
        rw [hfc, ← ih hrest]
        simp [processItems, hin, hold]

/-- Despite fetching every page, the paging loop collects exactly the
in-window items when the whole feed (pages concatenated) is sorted
newest-to-oldest. -/
theorem pageChannelFeed_ids_sorted (thr run : Int) (pages : List (List FeedItem))
    (hsorted : pages.flatten.Pairwise (fun a b => b.publishedAt ≤ a.publishedAt)) :
    (pageChannelFeed thr run pages).1 =
      (pages.flatten.filter (fun it => thr ≤ it.publishedAt ∧ it.publishedAt ≤ run)).map
        (fun it => it.videoId) := by
  induction pages with
  | nil => rfl
  | cons page rest ih =>
    rw [List.flatten_cons] at hsorted ⊢
    rcases List.pairwise_append.mp hsorted with ⟨hpage, hrest, _⟩
    cases rest with
    | nil =>
      simp [pageChannelFeed, processItems_sorted thr run page hpage]
    | cons r rs =>
      simp only [pageChannelFeed, List.filter_append, List.map_append]
      rw [processItems_sorted thr run page hpage, ih hrest]

/-- Claim C5: with the run date resolved (injected simulation date or current
time) and every channel feed sorted newest-to-oldest, a video id is in the
Video Discovery output iff some feed item carries it with a publish
timestamp in the closed window
`[run - delta_video_days * 86400, run]`. -/
theorem C5_video_window_membership (feedsOf : String → List (List FeedItem))
    (simulation_mode : Bool) (runDateAttr : Option Int) (now : Int)
    (deltaVideoDays run : Int) (channel_list : List (String × String))
    (hrun : resolveRunDate simulation_mode runDateAttr now = Except.ok run)
    (hsorted : ∀ c ∈ channel_list,
      ((feedsOf c.2).flatten).Pairwise (fun a b => b.publishedAt ≤ a.publishedAt)) :
    ∃ ids, getVideoIdsFromChannels feedsOf simulation_mode runDateAttr now
        deltaVideoDays channel_list = Except.ok ids ∧
      ∀ v, v ∈ ids ↔ ∃ c ∈ channel_list, ∃ it ∈ (feedsOf c.2).flatten,
        it.videoId = v ∧ run - deltaVideoDays * secondsPerDay ≤ it.publishedAt ∧
          it.publishedAt ≤ run := by
  refine ⟨(channel_list.map (fun c =>
      (pageChannelFeed (run - deltaVideoDays * secondsPerDay) run
        (feedsOf c.2)).1)).flatten, by simp [getVideoIdsFromChannels, hrun], ?_⟩
  intro v
  rw [List.mem_flatten]
  constructor
  · rintro ⟨l, hl, hv⟩
    rcases List.mem_map.mp hl with ⟨c, hc, rfl⟩
    rw [pageChannelFeed_ids_sorted _ _ _ (hsorted c hc)] at hv
    rcases List.mem_map.mp hv with ⟨it, hit, rfl⟩
    rcases List.mem_filter.mp hit with ⟨hmem, hcond⟩
    simp only [decide_eq_true_eq] at hcond
    exact ⟨c, hc, it, hmem, rfl, hcond.1, hcond.2⟩
  · rintro ⟨c, hc, it, hit, rfl, h1, h2⟩
    refine ⟨(pageChannelFeed (run - deltaVideoDays * secondsPerDay) run
        (feedsOf c.2)).1, List.mem_map.mpr ⟨c, hc, rfl⟩, ?_⟩
    rw [pageChannelFeed_ids_sorted _ _ _ (hsorted c hc)]
    exact List.mem_map.mpr ⟨it, List.mem_filter.mpr ⟨hit, by simp [h1, h2]⟩, rfl⟩

/-! ### Concrete discovery scenario (spec §8: publish dates day0, day-2,
day-6, a 5-day window ending at day0, a second feed page) -/

def wFirstPage : List FeedItem := [⟨"vday0", 0⟩, ⟨"vday2", -172800⟩]

def wSecondPage : List FeedItem := [⟨"vday6", -518400⟩]

def wFeedsOf : String → List (List FeedItem) :=
  fun cid => if cid = "id1" then [wFirstPage, wSecondPage] else []

/-- Witness for C5: on the concrete two-page feed, exactly the two videos in
the 5-day window are selected. -/
theorem C5_video_window_membership_witness :
    (resolveRunDate true (some 0) 0 = Except.ok 0 ∧
      (∀ c ∈ [("A", "id1")], ((wFeedsOf c.2).flatten).Pairwise
        (fun a b => b.publishedAt ≤ a.publishedAt))) ∧
    (∃ ids, getVideoIdsFromChannels wFeedsOf true (some 0) 0 5 [("A", "id1")] =
        Except.ok ids ∧
      ∀ v, v ∈ ids ↔ ∃ c ∈ [("A", "id1")], ∃ it ∈ (wFeedsOf c.2).flatten,
        it.videoId = v ∧ (0 : Int) - 5 * secondsPerDay ≤ it.publishedAt ∧
          it.publishedAt ≤ 0) :=
  ⟨⟨rfl, by decide⟩,
    C5_video_window_membership wFeedsOf true (some 0) 0 5 0 [("A", "id1")]
      rfl (by decide)⟩

/-! ## Claim C1: the early exit does not stop paging

In the source, the out-of-window branch sets `next_page_token = None` and
breaks out of the item loop (lines 112-115), but line 117 then
unconditionally reassigns `next_page_token` from the response, so the
`while` loop still fetches the next page whenever one exists.  On a sorted
two-page feed whose first page already contains an out-of-window item, the
loop therefore fetches both pages. -/

def c1FirstPage : List FeedItem := [⟨"v1", -86400⟩, ⟨"v2", -518400⟩]

def c1SecondPage : List FeedItem := [⟨"v3", -604800⟩]

def c1Pages : List (List FeedItem) := [c1FirstPage, c1SecondPage]

/-- Claim C1 (refuted by the code): on a feed sorted newest-to-oldest whose
first page contains an item older than the 5-day threshold `-432000`, the
paging loop still fetches 2 pages (the claim requires that no page be
requested after the out-of-window item is seen, i.e. 1 page here); the
collected ids are unaffected. -/
theorem C1_paging_continues_after_out_of_window :
    c1Pages.flatten.Pairwise (fun a b => b.publishedAt ≤ a.publishedAt) ∧
    (∃ it ∈ c1FirstPage, it.publishedAt < 0 - 5 * secondsPerDay) ∧
    pageChannelFeed (0 - 5 * secondsPerDay) 0 c1Pages = (["v1"], 2) :=
  ⟨by decide, by decide, by decide⟩

/-! ## Claim C2: a parse failure raises instead of returning `[]`

For a response body that is not JSON, the `except` block of
`extractRecommendationsFromTranscript` logs the warning and the raw response
text but never assigns `stocks`, so the final `return stocks` raises
`UnboundLocalError` instead of returning an empty list; the caller loop in
`identifyAssetsFromTranscript` catches that and substitutes `[]`, which is
how the run continues. -/

def c2FailingResponse : String := "I could not find any stock recommendations."

/-- Claim C2 (refuted as stated, at the extractor): on a non-JSON body the
extractor does log the raw response text, but its `result` is `none` — the
`UnboundLocalError` raise — rather than a returned `[]`; the enclosing loop
then catches the exception, logs a processing warning, and contributes `[]`
for the transcript. -/
theorem C2_extract_raises_instead_of_returning_empty :
    (extractRecommendationsFromTranscript c2FailingResponse).logs =
      [LogEvent.parseWarning c2FailingResponse] ∧
    (extractRecommendationsFromTranscript c2FailingResponse).result = none ∧
    processTranscriptResponse c2FailingResponse =
      ([LogEvent.parseWarning c2FailingResponse,
        LogEvent.transcriptProcessingError], []) :=
  ⟨by decide, rfl, rfl⟩

/-! ## Claim C8: missing simulation run date -/

def wFetcherEnv : FetcherEnv :=
  ⟨fun _ => [], fun _ => none, fun _ => ""⟩

/-- Claim C8: constructing the Asset Fetcher with `simulation_mode = True`
and no `simulation_run_date` logs the error but does not abort: `fetchAssets`
still runs (here on a well-formed channel file) and raises `AttributeError`
when `getVideoIdsFromChannels` reads the never-assigned
`__simulation_run_date` attribute. -/
theorem C8_fetcher_missing_run_date_attribute_error (env : FetcherEnv)
    (header : String) (body : List String) (rows : List ChannelRow)
    (hrows : mapOption parseChannelLine body = some rows)
    (deltaVideoDays now : Int) :
    assetFetcherInit env (header :: body) deltaVideoDays true none now =
      ([LogEvent.fetcherMissingRunDate], Except.error "AttributeError") := by
  simp [assetFetcherInit, fetchAssets, parseChannelFile, hrows,
    getVideoIdsFromChannels, resolveRunDate]

/-- Witness for C8 on the concrete channel file of `wChannelBody`. -/
theorem C8_fetcher_missing_run_date_attribute_error_witness :
    (mapOption parseChannelLine wChannelBody = some wChannelRows) ∧
    assetFetcherInit wFetcherEnv ("name,channel_id,priority" :: wChannelBody)
        5 true none 0 =
      ([LogEvent.fetcherMissingRunDate], Except.error "AttributeError") :=
  ⟨by decide,
    C8_fetcher_missing_run_date_attribute_error wFetcherEnv
      "name,channel_id,priority" wChannelBody wChannelRows (by decide) 5 0⟩

end AutoInvest
